import Mathlib

/-!
Verification development for the dynamic Honey Badger consensus engine in
`src/consensus/bft/honey_badger` (files `votes.rs`, `dynamic_honey_badger.rs`,
`builder.rs`, `batch.rs`, `mod.rs`).

Modelling conventions:

* `BTreeMap<K, V>` is modelled as an association list `List (K × V)` with an
  order-preserving `mapInsert` (on sorted lists this is exactly BTreeMap
  insertion; iteration order is the list order).
* The threshold-cryptography primitives, `NetworkInfo`, the inner
  `HoneyBadger` instance and `SyncKeyGen` live outside `src/`; following the
  spec they are treated as black boxes.  Signatures are modelled as the pair
  of the signing key and the signed payload with injective serialization, so
  serialization is total and the `Result`-typed functions of the source never
  return serialization errors in the model.
* Several statements of the Rust source drop a `return` keyword (for example
  `Ok(FaultLog::new());` in `VoteCounter::add_pending_vote`).  Every such
  statement is ill-typed Rust as written: the expression's error type (or
  `Into` target) is unconstrained, so the compiler rejects it unless the
  `return` is restored.  The embedding therefore restores those early
  returns, which is also the control flow the spec describes.
-/

namespace MinaOS

/-- Modelled from the spec: public keys of the missing `crypto` module are
opaque; we use naturals. -/
abbrev PublicKey := Nat

/-- Modelled from the spec: secret keys of the missing `crypto` module.  In
the model the public key corresponding to a secret key is the same natural. -/
abbrev SecretKey := Nat

/-- Modelled from the spec: an opaque DKG `Part` message (missing
`sync_key_gen` module). -/
abbrev Part := Nat

/-- Modelled from the spec: an opaque DKG `Ack` message (missing
`sync_key_gen` module). -/
abbrev Ack := Nat

/-- Modelled from the spec: an opaque threshold public-key set. -/
abbrev PKSet := Nat

/-- Modelled from the spec: an opaque inner Honey Badger message. -/
abbrev HbMsg := Nat

/-- Modelled from the spec: `util::max_faulty(n) = ⌊(n−1)/3⌋` (the `util`
module is not under `src/`). -/
def maxFaulty (n : Nat) : Nat := (n - 1) / 3

/-- Lookup in an association-list map (`BTreeMap::get`). -/
def mapLookup {K V : Type} [DecidableEq K] : List (K × V) → K → Option V
  | [], _ => none
  | (k', v') :: rest, k => if k = k' then some v' else mapLookup rest k

/-- Insert into an association-list map, replacing an existing binding and
keeping keys in order (`BTreeMap::insert`). -/
def mapInsert {K V : Type} [LinearOrder K] : List (K × V) → K → V → List (K × V)
  | [], k, v => [(k, v)]
  | (k', v') :: rest, k, v =>
    if k < k' then (k, v) :: (k', v') :: rest
    else if k = k' then (k, v) :: rest
    else (k', v') :: mapInsert rest k v

/-- Insert into an unordered association-list map, replacing the first
existing binding (`HashMap::insert`; only counts are stored this way). -/
def mapSet {K V : Type} [DecidableEq K] : List (K × V) → K → V → List (K × V)
  | [], k, v => [(k, v)]
  | (k', v') :: rest, k, v =>
    if k = k' then (k, v) :: rest else (k', v') :: mapSet rest k v

/-- Key list of an association-list map (`BTreeMap::keys`). -/
def mapKeys {K V : Type} (m : List (K × V)) : List K := m.map Prod.fst

/-- Value list of an association-list map (`BTreeMap::values`). -/
def mapValues {K V : Type} (m : List (K × V)) : List V := m.map Prod.snd

/-- `PubKeyMap<N>`: map from node id to long-term public key. -/
abbrev PubKeyMap (N : Type) := List (N × PublicKey)

/-- `Change<N>` (module `change`, re-exported by `mod.rs`): a membership or
encryption-policy change.  The encryption schedule itself is opaque. -/
inductive Change (N : Type) where
  | nodeChange (pks : PubKeyMap N)
  | encryptionSchedule (s : Nat)
deriving DecidableEq

/-- `ChangeState<N>`: progress of a change. -/
inductive ChangeState (N : Type) where
  | none
  | inProgress (c : Change N)
  | complete (c : Change N)
deriving DecidableEq

/-- `Vote<N>` from `votes.rs`. -/
structure Vote (N : Type) where
  change : Change N
  era : Nat
  num : Nat
deriving DecidableEq

/-- `KeyGenMessage` from `mod.rs`. -/
inductive KeyGenMessage where
  | part (p : Part)
  | ack (a : Ack)
deriving DecidableEq

/-- Serialized payloads that get signed: either a vote (`votes.rs`) or a key
generation message (`dynamic_honey_badger.rs`).  Serialization is modelled as
the identity, which is injective like `bincode`. -/
inductive SigPayload (N : Type) where
  | vote (v : Vote N)
  | keyGen (m : KeyGenMessage)
deriving DecidableEq

/-- Modelled from the spec: a signature of the missing `crypto` module is
determined by the signing key and the signed payload. -/
structure Signature (N : Type) where
  key : Nat
  payload : SigPayload N
deriving DecidableEq

/-- `SecretKey::sign` of the missing `crypto` module. -/
def SecretKey.sign {N : Type} (sk : SecretKey) (p : SigPayload N) : Signature N :=
  ⟨sk, p⟩

/-- `PublicKey::verify` of the missing `crypto` module: a signature verifies
under the public key whose secret key produced it (the model identifies the
two) on exactly the signed payload. -/
def PublicKey.verify {N : Type} [DecidableEq N] (pk : PublicKey)
    (sig : Signature N) (p : SigPayload N) : Bool :=
  decide (sig.key = pk ∧ sig.payload = p)

/-- `SignedVote<N>` from `votes.rs`. -/
structure SignedVote (N : Type) where
  vote : Vote N
  voter : N
  sig : Signature N
deriving DecidableEq

/-- `SignedVote::era`. -/
def SignedVote.era {N : Type} (sv : SignedVote N) : Nat := sv.vote.era

/-- `FaultKind` (module `error`, re-exported by `mod.rs`; variants as listed
in the spec and used by the source). -/
inductive FaultKind where
  | unexpectedDhbMessageEra
  | invalidVoteSignature
  | invalidCommittedVote
  | invalidKeyGenMessageSignature
  | unexpectedKeyGenMessage
  | tooManyKeyGenMessages
  | invalidKeyGenMessageEra
  | syncKeyGenPart
  | syncKeyGenAck
  | unexpectedKeyGenPart
  | unexpectedKeyGenAck
  | hbFault
deriving DecidableEq

/-- `Error` (module `error`, re-exported by `mod.rs`; variants as listed in
the spec and used by the source). -/
inductive Error where
  | invalidJoinPlan
  | serializeVote
  | serializeKeyGen
  | syncKeyGen
  | proposeHoneyBadger
  | handleHoneyBadgerMessage
  | unknownSender
deriving DecidableEq

/-- `FaultLog<N>`: list of `(faulty node, fault kind)` entries. -/
abbrev FaultLog (N : Type) := List (N × FaultKind)

/-- `FaultLog::init`. -/
def FaultLog.init {N : Type} (n : N) (k : FaultKind) : FaultLog N := [(n, k)]

/-- `VoteCounter<N>` from `votes.rs`. -/
structure VoteCounter (N : Type) where
  ourId : N
  secretKey : SecretKey
  pubKeys : PubKeyMap N
  era : Nat
  pending : List (N × SignedVote N)
  committed : List (N × Vote N)
deriving DecidableEq

namespace VoteCounter

variable {N : Type} [LinearOrder N]

/-- `VoteCounter::new`. -/
def new (ourId : N) (secretKey : SecretKey) (pubKeys : PubKeyMap N)
    (era : Nat) : VoteCounter N :=
  { ourId, secretKey, pubKeys, era, pending := [], committed := [] }

/-- `VoteCounter::validate`: serialize the vote and verify the signature
against the voter's key in the era's public-key map (total in the model). -/
def validate (vc : VoteCounter N) (sv : SignedVote N) : Bool :=
  match mapLookup vc.pubKeys sv.voter with
  | Option.none => false
  | some pk => PublicKey.verify pk sv.sig (SigPayload.vote sv.vote)

/-- `VoteCounter::add_pending_vote`.  The early `return` on the first guard
is restored (the literal `Ok(FaultLog::new());` statement is ill-typed
Rust). -/
def addPendingVote (vc : VoteCounter N) (senderId : N) (sv : SignedVote N) :
    Except Error (VoteCounter N × FaultLog N) :=
  if decide (sv.vote.era ≠ vc.era) ||
      (mapLookup vc.pending sv.voter).any
        (fun sv₀ => decide (sv₀.vote.num ≥ sv.vote.num)) then
    .ok (vc, [])
  else if !vc.validate sv then
    .ok (vc, FaultLog.init senderId FaultKind.invalidVoteSignature)
  else
    .ok ({ vc with pending := mapInsert vc.pending sv.voter sv }, [])

/-- `VoteCounter::pending_votes`: pending votes whose `num` strictly exceeds
the committed `num` of the same voter. -/
def pendingVotes (vc : VoteCounter N) : List (SignedVote N) :=
  (mapValues vc.pending).filter fun sv =>
    match mapLookup vc.committed sv.voter with
    | Option.none => true
    | some v => v.num < sv.vote.num

/-- `VoteCounter::add_committed_vote`. -/
def addCommittedVote (vc : VoteCounter N) (proposerId : N)
    (sv : SignedVote N) : Except Error (VoteCounter N × FaultLog N) :=
  if (mapLookup vc.committed sv.voter).any
      (fun v => decide (v.num ≥ sv.vote.num)) then
    .ok (vc, [])
  else if decide (sv.vote.era ≠ vc.era) || !vc.validate sv then
    .ok (vc, FaultLog.init proposerId FaultKind.invalidCommittedVote)
  else
    .ok ({ vc with committed := mapInsert vc.committed sv.voter sv.vote }, [])

/-- `VoteCounter::add_committed_votes`. -/
def addCommittedVotes (vc : VoteCounter N) (proposerId : N)
    (svs : List (SignedVote N)) : Except Error (VoteCounter N × FaultLog N) :=
  svs.foldlM
    (fun acc sv => (addCommittedVote acc.1 proposerId sv).map
      fun r => (r.1, acc.2 ++ r.2))
    (vc, [])

/-- Loop of `VoteCounter::compute_winner`: scan the committed votes keeping a
running count per change; return the first change whose running count
strictly exceeds `f`. -/
def computeWinnerGo (f : Nat) (counts : List (Change N × Nat)) :
    List (Vote N) → Option (Change N)
  | [] => Option.none
  | v :: vs =>
    let n := (mapLookup counts v.change).getD 0 + 1
    if n > f then some v.change
    else computeWinnerGo f (mapSet counts v.change n) vs

/-- `VoteCounter::compute_winner`.  The committed map is iterated in its key
order (`BTreeMap::values`); counts live in a map keyed by the change. -/
def computeWinner (vc : VoteCounter N) : Option (Change N) :=
  computeWinnerGo (maxFaulty vc.pubKeys.length) [] (mapValues vc.committed)

end VoteCounter

/-- Number of committed votes in the sequence `votes` naming change `c`. -/
def countVotesFor {N : Type} [DecidableEq N] (votes : List (Vote N))
    (c : Change N) : Nat :=
  (votes.filter fun v => v.change = c).length

/-- `Params` of the missing `honey_badger` module: `max_future_epochs`,
`encryption_schedule`, `subset_handling_strategy` (the last two opaque). -/
structure Params where
  maxFutureEpochs : Nat
  encryptionSchedule : Nat
  subsetHandlingStrategy : Nat
deriving DecidableEq

/-- Modelled from the spec: `NetworkInfo` (crate root, not under `src/`) is a
snapshot of our id, an optional secret key share, the threshold public-key
set and the ordered validator ids. -/
structure NetworkInfo (N : Type) where
  ourId : N
  secretKeyShare : Option Nat
  publicKeySet : PKSet
  allIds : List N
deriving DecidableEq

/-- `NetworkInfo::new`. -/
def NetworkInfo.new {N : Type} (ourId : N) (secretKeyShare : Option Nat)
    (publicKeySet : PKSet) (allIds : List N) : NetworkInfo N :=
  { ourId, secretKeyShare, publicKeySet, allIds }

/-- `NetworkInfo::is_node_validator`. -/
def NetworkInfo.isNodeValidator {N : Type} [DecidableEq N]
    (ni : NetworkInfo N) (id : N) : Bool :=
  decide (id ∈ ni.allIds)

/-- `NetworkInfo::is_validator`. -/
def NetworkInfo.isValidator {N : Type} [DecidableEq N]
    (ni : NetworkInfo N) : Bool :=
  ni.isNodeValidator ni.ourId

/-- Modelled from the spec: `NetworkInfo::num_faulty` is
`f = ⌊(n−1)/3⌋` for `n` validators. -/
def NetworkInfo.numFaulty {N : Type} (ni : NetworkInfo N) : Nat :=
  maxFaulty ni.allIds.length

/-- Modelled from the spec: the inner `HoneyBadger` instance is a black box;
the engine only reads its `netinfo`, `params`, `epoch`, `has_input` and
`received_proposals` observables.  `session_id` is the era it was built
with. -/
structure HoneyBadger (N : Type) where
  netinfo : NetworkInfo N
  sessionId : Nat
  params : Params
  epoch : Nat
  hasInput : Bool
  receivedProposals : Nat
deriving DecidableEq

/-- `HoneyBadger::builder(netinfo).session_id(..).params(..).epoch(..).build()`;
a freshly built instance has no input and no received proposals.  When the
source omits `.epoch(..)` the epoch is 0. -/
def buildHoneyBadger {N : Type} (netinfo : NetworkInfo N) (sessionId : Nat)
    (params : Params) (epoch : Nat) : HoneyBadger N :=
  { netinfo, sessionId, params, epoch, hasInput := false,
    receivedProposals := 0 }

/-- Modelled from the spec: a `SyncKeyGen` run (missing `sync_key_gen`
module); the engine reads its participant key map, its internal readiness
flag and its count of complete contributions. -/
structure SyncKeyGen (N : Type) where
  pubKeys : PubKeyMap N
  ready : Bool
  countComplete : Nat
deriving DecidableEq

/-- `SyncKeyGen::num_nodes`. -/
def SyncKeyGen.numNodes {N : Type} (kg : SyncKeyGen N) : Nat :=
  kg.pubKeys.length

/-- `KeyGenState<N>` from `mod.rs`. -/
structure KeyGenState (N : Type) where
  keyGen : SyncKeyGen N
  msgCount : List (N × Nat)
deriving DecidableEq

/-- `KeyGenState::new`. -/
def KeyGenState.new {N : Type} (keyGen : SyncKeyGen N) : KeyGenState N :=
  { keyGen, msgCount := [] }

/-- `KeyGenState::is_ready`: the DKG reports ready and strictly more than
two thirds of the participants have complete contributions. -/
def KeyGenState.isReady {N : Type} (kgs : KeyGenState N) : Bool :=
  kgs.keyGen.ready &&
    decide (kgs.keyGen.countComplete * 3 > 2 * kgs.keyGen.pubKeys.length)

/-- `KeyGenState::public_keys`. -/
def KeyGenState.publicKeys {N : Type} (kgs : KeyGenState N) : PubKeyMap N :=
  kgs.keyGen.pubKeys

/-- `KeyGenState::count_messages`: increment and return the sender's
message count. -/
def KeyGenState.countMessages {N : Type} [LinearOrder N] (kgs : KeyGenState N)
    (nodeId : N) : KeyGenState N × Nat :=
  let c := (mapLookup kgs.msgCount nodeId).getD 0 + 1
  ({ kgs with msgCount := mapInsert kgs.msgCount nodeId c }, c)

/-- `SignedKeyGenMsg<N>` from `mod.rs` (a tuple struct
`(era, sender, kg_msg, sig)`). -/
structure SignedKeyGenMsg (N : Type) where
  era : Nat
  sender : N
  msg : KeyGenMessage
  sig : Signature N
deriving DecidableEq

/-- `Target`: recipient of an outgoing message. -/
inductive Target (N : Type) where
  | all
  | node (id : N)
deriving DecidableEq

/-- `Message<N>` from `mod.rs`. -/
inductive Message (N : Type) where
  | honeyBadger (era : Nat) (m : HbMsg)
  | keyGen (era : Nat) (m : KeyGenMessage) (sig : Signature N)
  | signedVote (sv : SignedVote N)
deriving DecidableEq

/-- `Message::era`. -/
def Message.era {N : Type} : Message N → Nat
  | .honeyBadger e _ => e
  | .keyGen e _ _ => e
  | .signedVote sv => sv.era

/-- `InternalContrib<C, N>` from `mod.rs`. -/
structure InternalContrib (C N : Type) where
  contrib : C
  keyGenMessages : List (SignedKeyGenMsg N)
  votes : List (SignedVote N)
deriving DecidableEq

/-- A batch emitted by the inner Honey Badger: its internal epoch and the
internal contributions per proposer (iterated in validator order). -/
structure HbBatch (C N : Type) where
  epoch : Nat
  contributions : List (N × InternalContrib C N)
deriving DecidableEq

/-- Test of a `ChangeState` being `Complete`. -/
def ChangeState.isComplete {N : Type} : ChangeState N → Bool
  | .complete _ => true
  | _ => false

/-- `Batch<C, N>` from `batch.rs`. -/
structure Batch (C N : Type) where
  epoch : Nat
  era : Nat
  contributions : List (N × C)
  change : ChangeState N
  pubKeys : PubKeyMap N
  netinfo : NetworkInfo N
  params : Params
deriving DecidableEq

/-- `Step<C, N>`: outgoing messages, output batches and the fault log. -/
structure Step (C N : Type) where
  messages : List (Target N × Message N)
  output : List (Batch C N)
  faultLog : FaultLog N
deriving DecidableEq

/-- `Step::default`. -/
def Step.default {C N : Type} : Step C N :=
  { messages := [], output := [], faultLog := [] }

/-- `Fault::new(n, kind).into()`: a step recording a single fault. -/
def Step.ofFault {C N : Type} (n : N) (k : FaultKind) : Step C N :=
  { messages := [], output := [], faultLog := [(n, k)] }

/-- `FaultLog::into`: a step carrying only a fault log. -/
def Step.ofFaultLog {C N : Type} (fl : FaultLog N) : Step C N :=
  { messages := [], output := [], faultLog := fl }

/-- `Step::extend`. -/
def Step.merge {C N : Type} (s₁ s₂ : Step C N) : Step C N :=
  { messages := s₁.messages ++ s₂.messages, output := s₁.output ++ s₂.output,
    faultLog := s₁.faultLog ++ s₂.faultLog }

/-- A step of the inner Honey Badger: messages (to be wrapped with the
current era), output batches and faults of inner kinds. -/
structure HbStep (C N : Type) where
  messages : List (Target N × HbMsg)
  output : List (HbBatch C N)
  faultLog : List N

/-- `PartOutcome` of the missing `sync_key_gen` module. -/
inductive PartOutcome where
  | valid (a : Option Ack)
  | invalid
deriving DecidableEq

/-- `AckOutcome` of the missing `sync_key_gen` module. -/
inductive AckOutcome where
  | valid
  | invalid
deriving DecidableEq

/-- Modelled from the spec: the black-box collaborators of the engine — the
inner Honey Badger's message handler and the `SyncKeyGen` operations (the
random generator is folded into the oracle, and `SyncKeyGen::new` stores
exactly the key map it is given, reported back through `public_keys`). -/
structure DhbOracle (C N : Type) where
  hbHandleMessage :
    HoneyBadger N → N → HbMsg → Except Unit (HoneyBadger N × HbStep C N)
  kgNew : N → SecretKey → PubKeyMap N → Nat → Bool × Nat × Option Part
  kgHandlePart : SyncKeyGen N → N → Part → SyncKeyGen N × PartOutcome
  kgHandleAck : SyncKeyGen N → N → Ack → SyncKeyGen N × AckOutcome
  kgGenerate : SyncKeyGen N → Except Unit (PKSet × Option Nat)

/-- `DynamicHoneyBadger<C, N>` from `dynamic_honey_badger.rs` (the
contribution type `C` only appears in steps and batches, so the state record
does not carry it). -/
structure DynamicHoneyBadger (N : Type) where
  secretKey : SecretKey
  pubKeys : PubKeyMap N
  maxFutureEpochs : Nat
  era : Nat
  voteCounter : VoteCounter N
  keyGenMsgBuffer : List (SignedKeyGenMsg N)
  honeyBadger : HoneyBadger N
  keyGenState : Option (KeyGenState N)
deriving DecidableEq

namespace DynamicHoneyBadger

variable {C N : Type} [LinearOrder N]

/-- `DynamicHoneyBadger::netinfo`. -/
def netinfo (d : DynamicHoneyBadger N) : NetworkInfo N :=
  d.honeyBadger.netinfo

/-- `DynamicHoneyBadger::our_id` (from `ConsensusProtocol`). -/
def ourId (d : DynamicHoneyBadger N) : N :=
  (netinfo d).ourId

/-- `DynamicHoneyBadger::has_input`. -/
def hasInput (d : DynamicHoneyBadger N) : Bool :=
  d.honeyBadger.hasInput

/-- `DynamicHoneyBadger::new` without the assert (used where the assert is
known to hold). -/
def newUnchecked (secretKey : SecretKey) (pubKeys : PubKeyMap N)
    (netinfo : NetworkInfo N) (params : Params) (era epoch : Nat) :
    DynamicHoneyBadger N :=
  { secretKey, pubKeys, maxFutureEpochs := params.maxFutureEpochs, era,
    voteCounter := VoteCounter.new netinfo.ourId secretKey pubKeys era,
    keyGenMsgBuffer := [],
    honeyBadger := buildHoneyBadger netinfo era params epoch,
    keyGenState := Option.none }

/-- `DynamicHoneyBadger::new`: asserts that the netinfo's ordered node ids
equal the keys of the public-key map; the panic is modelled as `none`. -/
def new? (secretKey : SecretKey) (pubKeys : PubKeyMap N)
    (netinfo : NetworkInfo N) (params : Params) (era epoch : Nat) :
    Option (DynamicHoneyBadger N) :=
  if netinfo.allIds = mapKeys pubKeys then
    some (newUnchecked secretKey pubKeys netinfo params era epoch)
  else
    Option.none

/-- `DynamicHoneyBadger::restart_honey_badger`: bump the era, prune the
key-gen buffer of entries from older eras, rebuild the vote counter fresh
for the new era and build a fresh inner Honey Badger with `session_id =
era` (its epoch restarts at 0). -/
def restartHoneyBadger (d : DynamicHoneyBadger N) (era : Nat)
    (params : Params) (ni : NetworkInfo N) : DynamicHoneyBadger N :=
  { d with
    era := era,
    keyGenMsgBuffer := d.keyGenMsgBuffer.filter fun m => decide (era ≤ m.era),
    voteCounter := VoteCounter.new (ourId d) d.secretKey d.pubKeys era,
    honeyBadger := buildHoneyBadger ni era params 0 }

/-- `DynamicHoneyBadger::update_encryption_schedule`. -/
def updateEncryptionSchedule (d : DynamicHoneyBadger N) (era : Nat)
    (schedule : Nat) : DynamicHoneyBadger N :=
  restartHoneyBadger d era
    { d.honeyBadger.params with encryptionSchedule := schedule } (netinfo d)

/-- `DynamicHoneyBadger::send_transaction`: sign the key-gen message, keep a
self-copy in the buffer if we are a validator, and broadcast it. -/
def sendTransaction (d : DynamicHoneyBadger N) (kgMsg : KeyGenMessage) :
    Except Error (DynamicHoneyBadger N × Step C N) :=
  let sig : Signature N := SecretKey.sign d.secretKey (SigPayload.keyGen kgMsg)
  let d' :=
    if (netinfo d).isValidator then
      { d with keyGenMsgBuffer :=
          d.keyGenMsgBuffer ++ [⟨d.era, ourId d, kgMsg, sig⟩] }
    else d
  .ok (d', { messages := [(Target.all, Message.keyGen d.era kgMsg sig)],
             output := [], faultLog := [] })

/-- `DynamicHoneyBadger::update_key_gen`.  The early `return` on the
equality guard is restored (the literal `Ok(Step::default());` statement is
ill-typed Rust). -/
def updateKeyGen (oracle : DhbOracle C N) (d : DynamicHoneyBadger N)
    (era : Nat) (pubKeys : PubKeyMap N) :
    Except Error (DynamicHoneyBadger N × Step C N) :=
  if d.keyGenState.map KeyGenState.publicKeys = some pubKeys then
    .ok (d, Step.default)
  else
    let params := d.honeyBadger.params
    let d₁ := restartHoneyBadger d era params (netinfo d)
    let threshold := maxFaulty pubKeys.length
    match oracle.kgNew (ourId d₁) d₁.secretKey pubKeys threshold with
    | (ready, complete, some p) =>
      sendTransaction { d₁ with keyGenState := some (KeyGenState.new ⟨pubKeys, ready, complete⟩) } (KeyGenMessage.part p)
    | (ready, complete, Option.none) =>
      .ok ({ d₁ with keyGenState := some (KeyGenState.new ⟨pubKeys, ready, complete⟩) }, Step.default)

/-- `DynamicHoneyBadger::take_ready_key_gen`. -/
def takeReadyKeyGen (d : DynamicHoneyBadger N) :
    DynamicHoneyBadger N × Option (KeyGenState N) :=
  match d.keyGenState with
  | some kgs =>
    if kgs.isReady then ({ d with keyGenState := Option.none }, some kgs)
    else (d, Option.none)
  | Option.none => (d, Option.none)

/-- `DynamicHoneyBadger::verify_signature`: accept if the signature verifies
under the sender's current key or under its key in the candidate map of an
in-progress DKG (total in the model). -/
def verifySignature (d : DynamicHoneyBadger N) (nodeId : N)
    (sig : Signature N) (kgMsg : KeyGenMessage) : Except Error Bool :=
  let verifyOpt : Option PublicKey → Bool := fun
    | Option.none => false
    | some pk => PublicKey.verify pk sig (SigPayload.keyGen kgMsg)
  .ok (verifyOpt (mapLookup d.pubKeys nodeId) ||
       verifyOpt (d.keyGenState.bind fun kgs =>
         mapLookup kgs.keyGen.pubKeys nodeId))

/-- `DynamicHoneyBadger::handle_key_gen_message`.  The early `return`s on
the signature and flooding guards are restored (the literal
`Ok(Fault::new(..).into());` statements are ill-typed Rust). -/
def handleKeyGenMessage (d : DynamicHoneyBadger N) (senderId : N)
    (kgMsg : KeyGenMessage) (sig : Signature N) :
    Except Error (DynamicHoneyBadger N × FaultLog N) := do
  let v ← verifySignature d senderId sig kgMsg
  if !v then
    return (d, FaultLog.init senderId FaultKind.invalidKeyGenMessageSignature)
  match d.keyGenState with
  | Option.none =>
    return (d, FaultLog.init senderId FaultKind.unexpectedKeyGenMessage)
  | some kgs =>
    let r := kgs.countMessages senderId
    let d₁ := { d with keyGenState := some r.1 }
    if r.2 > r.1.keyGen.numNodes + 1 then
      return (d₁, FaultLog.init senderId FaultKind.tooManyKeyGenMessages)
    return ({ d₁ with keyGenMsgBuffer :=
        d₁.keyGenMsgBuffer ++ [⟨d₁.era, senderId, kgMsg, sig⟩] }, [])

/-- `DynamicHoneyBadger::handle_part`.  The missing-DKG branch's `return` is
restored (the literal statement is ill-typed Rust). -/
def handlePart (oracle : DhbOracle C N) (d : DynamicHoneyBadger N)
    (senderId : N) (p : Part) :
    Except Error (DynamicHoneyBadger N × Step C N) :=
  match d.keyGenState with
  | Option.none => .ok (d, Step.ofFault senderId FaultKind.unexpectedKeyGenPart)
  | some kgs =>
    match oracle.kgHandlePart kgs.keyGen senderId p with
    | (kg', PartOutcome.valid (some a)) =>
      sendTransaction { d with keyGenState := some { kgs with keyGen := kg' } }
        (KeyGenMessage.ack a)
    | (kg', PartOutcome.valid Option.none) =>
      .ok ({ d with keyGenState := some { kgs with keyGen := kg' } },
        Step.default)
    | (kg', PartOutcome.invalid) =>
      .ok ({ d with keyGenState := some { kgs with keyGen := kg' } },
        Step.ofFault senderId FaultKind.syncKeyGenPart)

/-- `DynamicHoneyBadger::handle_ack`.  The missing-DKG branch's `return` is
restored (the literal statement is ill-typed Rust). -/
def handleAck (oracle : DhbOracle C N) (d : DynamicHoneyBadger N)
    (senderId : N) (a : Ack) :
    Except Error (DynamicHoneyBadger N × Step C N) :=
  match d.keyGenState with
  | Option.none => .ok (d, Step.ofFault senderId FaultKind.unexpectedKeyGenAck)
  | some kgs =>
    match oracle.kgHandleAck kgs.keyGen senderId a with
    | (kg', AckOutcome.valid) =>
      .ok ({ d with keyGenState := some { kgs with keyGen := kg' } },
        Step.default)
    | (kg', AckOutcome.invalid) =>
      .ok ({ d with keyGenState := some { kgs with keyGen := kg' } },
        Step.ofFault senderId FaultKind.syncKeyGenAck)

/-- Inner loop body of `process_output`: handle one committed
`SignedKeyGenMsg` proposed by `proposerId`. -/
def handleCommittedKeyGenMsg (oracle : DhbOracle C N)
    (d : DynamicHoneyBadger N) (proposerId : N) (skgm : SignedKeyGenMsg N) :
    Except Error (DynamicHoneyBadger N × Step C N) := do
  if skgm.era ≠ d.era then
    return (d, Step.ofFault proposerId FaultKind.invalidKeyGenMessageEra)
  let v ← verifySignature d skgm.sender skgm.sig skgm.msg
  if !v then
    return (d, Step.ofFault proposerId FaultKind.invalidKeyGenMessageSignature)
  match skgm.msg with
  | KeyGenMessage.part p => handlePart oracle d skgm.sender p
  | KeyGenMessage.ack a => handleAck oracle d skgm.sender a

/-- Per-contribution body of `process_output`: commit the piggybacked votes,
record the contribution, drop committed key-gen messages from the buffer and
dispatch them. -/
def processContrib (oracle : DhbOracle C N)
    (acc : DynamicHoneyBadger N × Step C N × List (N × C))
    (entry : N × InternalContrib C N) :
    Except Error (DynamicHoneyBadger N × Step C N × List (N × C)) := do
  let (d, step, contribs) := acc
  let (id, ic) := entry
  let r ← VoteCounter.addCommittedVotes d.voteCounter id ic.votes
  let d₁ := { d with voteCounter := r.1 }
  let step₁ := { step with faultLog := step.faultLog ++ r.2 }
  let contribs' := mapInsert contribs id ic.contrib
  let d₂ := { d₁ with keyGenMsgBuffer :=
      d₁.keyGenMsgBuffer.filter fun m => decide (m ∉ ic.keyGenMessages) }
  ic.keyGenMessages.foldlM
    (fun acc₂ skgm => do
      let r₂ ← handleCommittedKeyGenMsg oracle acc₂.1 id skgm
      pure (r₂.1, Step.merge acc₂.2.1 r₂.2, acc₂.2.2))
    (d₂, step₁, contribs')

/-- Append the per-epoch `Batch` to the step (`step.output.push(Batch {..})`
at the end of the `process_output` loop body). -/
def emitBatch (d : DynamicHoneyBadger N) (step : Step C N)
    (batchEpoch batchEra : Nat) (contribs : List (N × C))
    (change : ChangeState N) : DynamicHoneyBadger N × Step C N :=
  (d, { step with output := step.output ++
      [{ epoch := batchEpoch, era := batchEra, contributions := contribs,
         change := change, pubKeys := d.pubKeys, netinfo := netinfo d,
         params := d.honeyBadger.params }] })

/-- Body of the `process_output` loop for a single inner Honey Badger batch:
process the contributions, then decide this batch's `ChangeState` (finalize
a ready DKG, else act on a winning vote), then emit the batch. -/
def processBatch (oracle : DhbOracle C N) (d : DynamicHoneyBadger N)
    (hbBatch : HbBatch C N) :
    Except Error (DynamicHoneyBadger N × Step C N) := do
  let batchEra := d.era
  let batchEpoch := hbBatch.epoch + batchEra
  let acc ← hbBatch.contributions.foldlM (processContrib oracle)
    (d, Step.default, ([] : List (N × C)))
  let (d₁, step₁, contribs) := acc
  match takeReadyKeyGen d₁ with
  | (d₂, some kgs) =>
    let d₃ := { d₂ with pubKeys := kgs.keyGen.pubKeys }
    match oracle.kgGenerate kgs.keyGen with
    | .error _ => throw Error.syncKeyGen
    | .ok r =>
      let ni := NetworkInfo.new (ourId d₃) r.2 r.1 (mapKeys d₃.pubKeys)
      let params := d₃.honeyBadger.params
      let d₄ := restartHoneyBadger d₃ (batchEpoch + 1) params ni
      pure (emitBatch d₄ step₁ batchEpoch batchEra contribs
        (ChangeState.complete (Change.nodeChange d₄.pubKeys)))
  | (d₂, Option.none) =>
    match VoteCounter.computeWinner d₂.voteCounter with
    | some (Change.nodeChange pks) => do
      let r ← updateKeyGen oracle d₂ (batchEpoch + 1) pks
      pure (emitBatch r.1 (Step.merge step₁ r.2) batchEpoch batchEra contribs
        (ChangeState.inProgress (Change.nodeChange pks)))
    | some (Change.encryptionSchedule sch) =>
      let d₃ := updateEncryptionSchedule d₂ (batchEpoch + 1) sch
      pure (emitBatch d₃ step₁ batchEpoch batchEra contribs
        (ChangeState.complete (Change.encryptionSchedule sch)))
    | Option.none =>
      pure (emitBatch d₂ step₁ batchEpoch batchEra contribs ChangeState.none)

/-- `DynamicHoneyBadger::process_output`: wrap the inner step's messages
with the current era, map inner faults to `HbFault`, and process each inner
batch in turn. -/
def processOutput (oracle : DhbOracle C N) (d : DynamicHoneyBadger N)
    (hbStep : HbStep C N) :
    Except Error (DynamicHoneyBadger N × Step C N) := do
  let step₀ : Step C N :=
    { messages := hbStep.messages.map fun tm =>
        (tm.1, Message.honeyBadger d.era tm.2),
      output := [],
      faultLog := hbStep.faultLog.map fun n => (n, FaultKind.hbFault) }
  hbStep.output.foldlM
    (fun acc hbBatch => do
      let r ← processBatch oracle acc.1 hbBatch
      pure (r.1, Step.merge acc.2 r.2))
    (d, step₀)

/-- `DynamicHoneyBadger::handle_honey_badger_message`.  The non-validator
branch's `return` is restored (the literal `Err(Error::UnknownSender)`
statement is ill-typed Rust without it). -/
def handleHoneyBadgerMessage (oracle : DhbOracle C N)
    (d : DynamicHoneyBadger N) (senderId : N) (m : HbMsg) :
    Except Error (DynamicHoneyBadger N × Step C N) :=
  if !((netinfo d).isNodeValidator senderId) then
    .error Error.unknownSender
  else
    match oracle.hbHandleMessage d.honeyBadger senderId m with
    | .error _ => .error Error.handleHoneyBadgerMessage
    | .ok r => processOutput oracle { d with honeyBadger := r.1 } r.2

/-- `DynamicHoneyBadger::handle_message`: compare the message era with ours;
future eras are a fault by the sender, past eras are silently dropped, and
current-era messages are dispatched by kind. -/
def handleMessage (oracle : DhbOracle C N) (d : DynamicHoneyBadger N)
    (senderId : N) (msg : Message N) :
    Except Error (DynamicHoneyBadger N × Step C N) :=
  if msg.era > d.era then
    .ok (d, Step.ofFault senderId FaultKind.unexpectedDhbMessageEra)
  else if msg.era < d.era then
    .ok (d, Step.default)
  else
    match msg with
    | Message.honeyBadger _ m => handleHoneyBadgerMessage oracle d senderId m
    | Message.keyGen _ kg sig =>
      (handleKeyGenMessage d senderId kg sig).map fun r =>
        (r.1, Step.ofFaultLog r.2)
    | Message.signedVote sv =>
      (VoteCounter.addPendingVote d.voteCounter senderId sv).map fun r =>
        ({ d with voteCounter := r.1 }, (Step.ofFaultLog r.2 : Step C N))

/-- `DynamicHoneyBadger::should_propose`.  The early `return false` /
`return true` of the first three guards are restored (the literal
`if .. { false }` statements are ill-typed Rust). -/
def shouldPropose (d : DynamicHoneyBadger N) : Bool :=
  if hasInput d then false
  else if d.honeyBadger.receivedProposals > (netinfo d).numFaulty then true
  else
    (VoteCounter.pendingVotes d.voteCounter).any
      (fun sv => decide (sv.voter = ourId d)) ||
    !d.keyGenMsgBuffer.isEmpty

end DynamicHoneyBadger

/-- `JoinPlan<N>` from `mod.rs`. -/
structure JoinPlan (N : Type) where
  era : Nat
  change : ChangeState N
  pubKeys : PubKeyMap N
  pubKeySet : PKSet
  params : Params

namespace DynamicHoneyBadger

variable {C N : Type} [LinearOrder N]

/-- `DynamicHoneyBadger::new_joining`: validate the join plan, build a
`NetworkInfo` without a secret key share from the plan's key map, construct
the engine at the plan's era with inner epoch 0, and start a DKG when the
plan's change is an in-progress node change.  The source calls `new`, whose
assert holds here because the netinfo's ids are built from the plan's key
map. -/
def newJoining (oracle : DhbOracle C N) (ourId : N) (secretKey : SecretKey)
    (plan : JoinPlan N) :
    Except Error (DynamicHoneyBadger N × Step C N) := do
  let newPubKeysOpt : Option (PubKeyMap N) ←
    match plan.change with
    | ChangeState.inProgress (Change.encryptionSchedule _) => pure Option.none
    | ChangeState.none => pure Option.none
    | ChangeState.inProgress (Change.nodeChange pks) => pure (some pks)
    | ChangeState.complete c =>
      let valid : Bool :=
        match c with
        | Change.encryptionSchedule s =>
          decide (s = plan.params.encryptionSchedule)
        | Change.nodeChange newPks => decide (newPks = plan.pubKeys)
      if valid then pure Option.none else throw Error.invalidJoinPlan
  let ni := NetworkInfo.new ourId Option.none plan.pubKeySet
    (mapKeys plan.pubKeys)
  let dhb := newUnchecked secretKey plan.pubKeys ni plan.params plan.era 0
  match newPubKeysOpt with
  | some pks => updateKeyGen oracle dhb plan.era pks
  | Option.none => pure (dhb, Step.default)

end DynamicHoneyBadger

/-- `DynamicHoneyBadgerBuilder<C, N>` from `builder.rs` (the phantom type
parameters are dropped). -/
structure DynamicHoneyBadgerBuilder where
  era : Nat
  epoch : Nat
  params : Params

/-- `DynamicHoneyBadgerBuilder::build`: construct an engine from an existing
`NetworkInfo` via `DynamicHoneyBadger::new` (whose assert is modelled as
`none`). -/
def DynamicHoneyBadgerBuilder.build {N : Type} [LinearOrder N]
    (b : DynamicHoneyBadgerBuilder) (netinfo : NetworkInfo N)
    (secretKey : SecretKey) (pubKeys : PubKeyMap N) :
    Option (DynamicHoneyBadger N) :=
  DynamicHoneyBadger.new? secretKey pubKeys netinfo b.params b.era b.epoch

/-! Concrete instances used to exercise the definitions (node ids and
contributions are naturals; four validators `0..3`, era 5, mirroring the
setup of the tests in `votes.rs`). -/

/-- Black-box collaborators that do nothing: the inner Honey Badger absorbs
messages, the DKG produces no `Part` and generates trivially. -/
def trivOracle : DhbOracle Nat Nat where
  hbHandleMessage := fun hb _ _ => .ok (hb, ⟨[], [], []⟩)
  kgNew := fun _ _ _ _ => (false, 0, Option.none)
  kgHandlePart := fun kg _ _ => (kg, PartOutcome.valid Option.none)
  kgHandleAck := fun kg _ _ => (kg, AckOutcome.valid)
  kgGenerate := fun _ => .ok (0, Option.none)

/-- Four validators with their long-term keys. -/
def samplePubKeys : PubKeyMap Nat := [(0, 0), (1, 1), (2, 2), (3, 3)]

/-- A network snapshot for the four validators, seen from node 0. -/
def sampleNetinfo : NetworkInfo Nat :=
  NetworkInfo.new 0 Option.none 0 [0, 1, 2, 3]

/-- Sample engine parameters. -/
def sampleParams : Params := ⟨3, 0, 0⟩

/-- A four-validator engine at era 5. -/
def sampleDhb : DynamicHoneyBadger Nat :=
  DynamicHoneyBadger.newUnchecked 0 samplePubKeys sampleNetinfo sampleParams 5 0

/-- A correctly signed vote by voter 1 at era 5, `num = 1`. -/
def sampleVote1 : SignedVote Nat :=
  { vote := { change := Change.encryptionSchedule 1, era := 5, num := 1 },
    voter := 1,
    sig := SecretKey.sign 1
      (SigPayload.vote { change := Change.encryptionSchedule 1, era := 5, num := 1 }) }

/-- A vote counter for the four validators at era 5 with voter 1's vote
pending. -/
def sampleVc : VoteCounter Nat :=
  { ourId := 0, secretKey := 0, pubKeys := samplePubKeys, era := 5,
    pending := [(1, sampleVote1)], committed := [] }

/-- A vote by voter 1 for era 4 (a past era for `sampleVc`). -/
def sampleStaleVote : SignedVote Nat :=
  { vote := { change := Change.encryptionSchedule 2, era := 4, num := 7 },
    voter := 1,
    sig := SecretKey.sign 1
      (SigPayload.vote { change := Change.encryptionSchedule 2, era := 4, num := 7 }) }

/-! Association-map lemmas. -/

/-- Lookup after `mapInsert` at the inserted key. -/
theorem mapLookup_mapInsert_self {K V : Type} [LinearOrder K]
    (m : List (K × V)) (k : K) (v : V) :
    mapLookup (mapInsert m k v) k = some v := by
  induction m with
  | nil => simp [mapInsert, mapLookup]
  | cons hd tl ih =>
    by_cases h₁ : k < hd.1
    · simp [mapInsert, h₁, mapLookup]
    · by_cases h₂ : k = hd.1
      · simp [mapInsert, h₁, h₂, mapLookup]
      · simp [mapInsert, h₁, h₂, mapLookup, ih]

/-- Lookup after `mapInsert` at a different key. -/
theorem mapLookup_mapInsert_ne {K V : Type} [LinearOrder K]
    (m : List (K × V)) (k k' : K) (v : V) (h : k' ≠ k) :
    mapLookup (mapInsert m k v) k' = mapLookup m k' := by
  induction m with
  | nil => simp [mapInsert, mapLookup, h]
  | cons hd tl ih =>
    by_cases h₁ : k < hd.1
    · simp [mapInsert, h₁, mapLookup, h]
    · by_cases h₂ : k = hd.1
      · subst h₂; simp [mapInsert, h₁, mapLookup, h]
      · by_cases h₃ : k' = hd.1 <;> simp [mapInsert, h₁, h₂, mapLookup, h₃, ih]

/-- Lookup after `mapSet` at the set key. -/
theorem mapLookup_mapSet_self {K V : Type} [DecidableEq K]
    (m : List (K × V)) (k : K) (v : V) :
    mapLookup (mapSet m k v) k = some v := by
  induction m with
  | nil => simp [mapSet, mapLookup]
  | cons hd tl ih =>
    by_cases h₂ : k = hd.1
    · simp [mapSet, h₂, mapLookup]
    · simp [mapSet, h₂, mapLookup, ih]

/-- Lookup after `mapSet` at a different key. -/
theorem mapLookup_mapSet_ne {K V : Type} [DecidableEq K]
    (m : List (K × V)) (k k' : K) (v : V) (h : k' ≠ k) :
    mapLookup (mapSet m k v) k' = mapLookup m k' := by
  induction m with
  | nil => simp [mapSet, mapLookup, h]
  | cons hd tl ih =>
    by_cases h₂ : k = hd.1
    · subst h₂; simp [mapSet, mapLookup, h]
    · by_cases h₃ : k' = hd.1 <;> simp [mapSet, h₂, mapLookup, h₃, ih]

/-! Claim theorems. -/

/-- C2: `handle_message` on a message of a strictly greater era returns a
step whose fault log is exactly `UnexpectedDhbMessageEra` against the
sender with the engine state unchanged; on a strictly smaller era it
returns the empty step with the engine state unchanged. -/
theorem handle_message_era_mismatch {C N : Type} [LinearOrder N]
    (oracle : DhbOracle C N) (d : DynamicHoneyBadger N) (senderId : N)
    (msg : Message N) :
    (msg.era > d.era →
      DynamicHoneyBadger.handleMessage oracle d senderId msg =
        .ok (d, Step.ofFault senderId FaultKind.unexpectedDhbMessageEra)) ∧
    (msg.era < d.era →
      DynamicHoneyBadger.handleMessage oracle d senderId msg =
        .ok (d, Step.default)) := by
  constructor
  · intro h
    unfold DynamicHoneyBadger.handleMessage
    rw [if_pos h]
  · intro h
    unfold DynamicHoneyBadger.handleMessage
    rw [if_neg (by omega), if_pos h]

/-- Witness for C2: a four-validator engine at era 5 handles messages of
eras 7 and 3. -/
theorem handle_message_era_mismatch_witness :
    DynamicHoneyBadger.handleMessage trivOracle sampleDhb 1
        (Message.honeyBadger 7 0) =
      .ok (sampleDhb, Step.ofFault 1 FaultKind.unexpectedDhbMessageEra) ∧
    DynamicHoneyBadger.handleMessage trivOracle sampleDhb 1
        (Message.honeyBadger 3 0) =
      .ok (sampleDhb, Step.default) :=
  ⟨(handle_message_era_mismatch trivOracle sampleDhb 1
      (Message.honeyBadger 7 0)).1 (by decide),
   (handle_message_era_mismatch trivOracle sampleDhb 1
      (Message.honeyBadger 3 0)).2 (by decide)⟩

/-- C3: `add_pending_vote` silently rejects (empty fault log, counter
unchanged, so in particular the pending map unchanged) any signed vote
whose era differs from the counter's era or whose `num` does not exceed the
`num` of the voter's stored pending vote. -/
theorem add_pending_vote_stale {N : Type} [LinearOrder N]
    (vc : VoteCounter N) (senderId : N) (sv : SignedVote N)
    (h : sv.vote.era ≠ vc.era ∨
      ∃ sv₀, mapLookup vc.pending sv.voter = some sv₀ ∧
        sv.vote.num ≤ sv₀.vote.num) :
    VoteCounter.addPendingVote vc senderId sv = .ok (vc, []) := by
  rcases h with h | ⟨sv₀, heq, hle⟩
  · simp [VoteCounter.addPendingVote, h]
  · simp [VoteCounter.addPendingVote, heq, Option.any, hle]

/-- Witness for C3: a vote for era 4 arriving at a counter in era 5, and a
vote with `num = 1` arriving while the voter's pending vote has `num = 1`. -/
theorem add_pending_vote_stale_witness :
    VoteCounter.addPendingVote sampleVc 2 sampleStaleVote =
      .ok (sampleVc, []) ∧
    VoteCounter.addPendingVote sampleVc 2 sampleVote1 =
      .ok (sampleVc, []) :=
  ⟨add_pending_vote_stale sampleVc 2 sampleStaleVote (Or.inl (by decide)),
   add_pending_vote_stale sampleVc 2 sampleVote1
     (Or.inr ⟨sampleVote1, by decide, by decide⟩)⟩

/-- C4: `handle_key_gen_message` with a signature verifying under neither
the current nor the candidate key map returns exactly an
`InvalidKeyGenMessageSignature` fault against the sender with the state
unchanged (so nothing is appended to `key_gen_msg_buffer`); with a
verifying signature but no DKG running it returns exactly an
`UnexpectedKeyGenMessage` fault against the sender, again unchanged. -/
theorem handle_key_gen_message_rejects {N : Type} [LinearOrder N]
    (d : DynamicHoneyBadger N) (senderId : N) (kgMsg : KeyGenMessage)
    (sig : Signature N) :
    (DynamicHoneyBadger.verifySignature d senderId sig kgMsg = .ok false →
      DynamicHoneyBadger.handleKeyGenMessage d senderId kgMsg sig =
        .ok (d, FaultLog.init senderId
          FaultKind.invalidKeyGenMessageSignature)) ∧
    (DynamicHoneyBadger.verifySignature d senderId sig kgMsg = .ok true →
      d.keyGenState = Option.none →
      DynamicHoneyBadger.handleKeyGenMessage d senderId kgMsg sig =
        .ok (d, FaultLog.init senderId FaultKind.unexpectedKeyGenMessage)) := by
  constructor
  · intro hv
    simp [DynamicHoneyBadger.handleKeyGenMessage, hv, Bind.bind, Except.bind,
      pure, Except.pure]
  · intro hv hkgs
    simp [DynamicHoneyBadger.handleKeyGenMessage, hv, hkgs, Bind.bind,
      Except.bind, pure, Except.pure]

/-- Witness for C4: node 9 is unknown to `sampleDhb`, so its signature
verifies under no key; node 1's correctly signed message meets no running
DKG. -/
theorem handle_key_gen_message_rejects_witness :
    DynamicHoneyBadger.handleKeyGenMessage sampleDhb 9 (KeyGenMessage.part 0)
        (SecretKey.sign 9 (SigPayload.keyGen (KeyGenMessage.part 0))) =
      .ok (sampleDhb,
        FaultLog.init 9 FaultKind.invalidKeyGenMessageSignature) ∧
    DynamicHoneyBadger.handleKeyGenMessage sampleDhb 1 (KeyGenMessage.part 0)
        (SecretKey.sign 1 (SigPayload.keyGen (KeyGenMessage.part 0))) =
      .ok (sampleDhb, FaultLog.init 1 FaultKind.unexpectedKeyGenMessage) :=
  ⟨(handle_key_gen_message_rejects sampleDhb 9 (KeyGenMessage.part 0)
      (SecretKey.sign 9 (SigPayload.keyGen (KeyGenMessage.part 0)))).1 rfl,
   (handle_key_gen_message_rejects sampleDhb 1 (KeyGenMessage.part 0)
      (SecretKey.sign 1 (SigPayload.keyGen (KeyGenMessage.part 0)))).2
     rfl rfl⟩

/-- C9: `handle_message` on a current-era Honey Badger message from a
sender who is not a validator of the current era returns the
`UnknownSender` error to the caller: no state is returned (the embedding is
functional, so an error result leaves the engine as it was) and the message
is never forwarded to the inner instance (the result does not depend on the
black-box handler). -/
theorem handle_hb_message_unknown_sender {C N : Type} [LinearOrder N]
    (oracle : DhbOracle C N) (d : DynamicHoneyBadger N) (senderId : N)
    (m : HbMsg)
    (h : (DynamicHoneyBadger.netinfo d).isNodeValidator senderId = false) :
    DynamicHoneyBadger.handleMessage oracle d senderId
      (Message.honeyBadger d.era m) = .error Error.unknownSender := by
  simp [DynamicHoneyBadger.handleMessage, Message.era,
    DynamicHoneyBadger.handleHoneyBadgerMessage, h]

/-- Witness for C9: node 9 is not one of the four validators of
`sampleDhb`. -/
theorem handle_hb_message_unknown_sender_witness :
    DynamicHoneyBadger.handleMessage trivOracle sampleDhb 9
      (Message.honeyBadger sampleDhb.era 0) = .error Error.unknownSender :=
  handle_hb_message_unknown_sender trivOracle sampleDhb 9 0 (by decide)

/-- C6: `add_committed_vote` keeps the committed `num` strictly increasing
per voter.  A vote whose `num` is at most the committed `num` of its voter
is never stored (the counter is returned unchanged with an empty fault
log), and any update to the committed map replaces only the voter's entry
with a strictly larger `num` (or inserts a first entry). -/
theorem add_committed_vote_monotonic {N : Type} [LinearOrder N]
    (vc : VoteCounter N) (proposerId : N) (sv : SignedVote N)
    (vc' : VoteCounter N) (log : FaultLog N)
    (h : VoteCounter.addCommittedVote vc proposerId sv = .ok (vc', log)) :
    (∀ v₀, mapLookup vc.committed sv.voter = some v₀ →
      sv.vote.num ≤ v₀.num → vc' = vc ∧ log = []) ∧
    (∀ v : N, mapLookup vc'.committed v = mapLookup vc.committed v ∨
      (v = sv.voter ∧ mapLookup vc'.committed v = some sv.vote ∧
        ∀ v₀, mapLookup vc.committed v = some v₀ →
          v₀.num < sv.vote.num)) := by
  unfold VoteCounter.addCommittedVote at h
  by_cases hsup : (mapLookup vc.committed sv.voter).any
      (fun v => decide (v.num ≥ sv.vote.num)) = true
  · rw [if_pos hsup] at h
    obtain ⟨h₁, h₂⟩ : vc = vc' ∧ [] = log := by
      have := h
      simp only [Except.ok.injEq, Prod.mk.injEq] at this
      exact this
    subst h₁; subst h₂
    exact ⟨fun _ _ _ => ⟨rfl, rfl⟩, fun v => Or.inl rfl⟩
  · rw [if_neg hsup] at h
    have hnotsup : ∀ v₀, mapLookup vc.committed sv.voter = some v₀ →
        v₀.num < sv.vote.num := by
      intro v₀ h₀
      rw [h₀] at hsup
      simp [Option.any] at hsup
      omega
    have hfst : ∀ v₀, mapLookup vc.committed sv.voter = some v₀ →
        sv.vote.num ≤ v₀.num → vc' = vc ∧ log = [] := by
      intro v₀ h₀ hle
      exact absurd (hnotsup v₀ h₀) (by omega)
    by_cases hbad : (decide (sv.vote.era ≠ vc.era) || !vc.validate sv) = true
    · rw [if_pos hbad] at h
      obtain ⟨h₁, h₂⟩ : vc = vc' ∧
          FaultLog.init proposerId FaultKind.invalidCommittedVote = log := by
        have := h
        simp only [Except.ok.injEq, Prod.mk.injEq] at this
        exact this
      subst h₁
      exact ⟨hfst, fun v => Or.inl rfl⟩
    · rw [if_neg hbad] at h
      obtain ⟨h₁, h₂⟩ :
          ({ vc with committed := mapInsert vc.committed sv.voter sv.vote }
            : VoteCounter N) = vc' ∧ [] = log := by
        have := h
        simp only [Except.ok.injEq, Prod.mk.injEq] at this
        exact this
      subst h₁
      refine ⟨hfst, fun v => ?_⟩
      by_cases hv : v = sv.voter
      · subst hv
        exact Or.inr ⟨rfl, mapLookup_mapInsert_self _ _ _, hnotsup⟩
      · exact Or.inl (mapLookup_mapInsert_ne _ _ _ _ hv)

/-- Witness for C6: committing voter 1's vote with `num = 1` into an empty
committed map stores it; the superseded-rejection branch is exercised on
the resulting counter by the first conjunct applied to a replay. -/
theorem add_committed_vote_monotonic_witness :
    VoteCounter.addCommittedVote sampleVc 2 sampleVote1 =
      .ok ({ sampleVc with
        committed := [(1, sampleVote1.vote)] }, []) ∧
    (mapLookup ({ sampleVc with
        committed := [(1, sampleVote1.vote)] } : VoteCounter Nat).committed
        sampleVote1.voter = mapLookup sampleVc.committed sampleVote1.voter ∨
      (sampleVote1.voter = sampleVote1.voter ∧
        mapLookup ({ sampleVc with
          committed := [(1, sampleVote1.vote)] } : VoteCounter Nat).committed
          sampleVote1.voter = some sampleVote1.vote ∧
        ∀ v₀, mapLookup sampleVc.committed sampleVote1.voter = some v₀ →
          v₀.num < sampleVote1.vote.num)) :=
  ⟨by rfl,
   (add_committed_vote_monotonic sampleVc 2 sampleVote1
       { sampleVc with committed := [(1, sampleVote1.vote)] } []
       (by rfl)).2 sampleVote1.voter⟩

/-- C10: `DynamicHoneyBadger::new` (and hence the builder's `build`) panics
exactly when the netinfo's ordered node ids differ from the key set of the
public-key map, and under the equal-ids precondition constructs an engine
with the given era, inner epoch and params, an empty key-gen message buffer
and no key-gen state. -/
theorem new_asserts_ids_match {N : Type} [LinearOrder N] (sk : SecretKey)
    (pks : PubKeyMap N) (ni : NetworkInfo N) (params : Params)
    (era epoch : Nat) :
    (DynamicHoneyBadger.new? sk pks ni params era epoch = Option.none ↔
      ni.allIds ≠ mapKeys pks) ∧
    (ni.allIds = mapKeys pks →
      DynamicHoneyBadger.new? sk pks ni params era epoch =
        some (DynamicHoneyBadger.newUnchecked sk pks ni params era epoch) ∧
      (DynamicHoneyBadger.newUnchecked sk pks ni params era epoch).era = era ∧
      (DynamicHoneyBadger.newUnchecked sk pks ni params
          era epoch).honeyBadger.epoch = epoch ∧
      (DynamicHoneyBadger.newUnchecked sk pks ni params
          era epoch).honeyBadger.params = params ∧
      (DynamicHoneyBadger.newUnchecked sk pks ni params
          era epoch).keyGenMsgBuffer = [] ∧
      (DynamicHoneyBadger.newUnchecked sk pks ni params
          era epoch).keyGenState = Option.none) ∧
    (∀ b : DynamicHoneyBadgerBuilder, b.build ni sk pks =
      DynamicHoneyBadger.new? sk pks ni b.params b.era b.epoch) := by
  refine ⟨?_, ?_, fun b => rfl⟩
  · constructor
    · intro h hne
      rw [DynamicHoneyBadger.new?, if_pos hne] at h
      exact Option.noConfusion h
    · intro hne
      rw [DynamicHoneyBadger.new?, if_neg hne]
  · intro hne
    refine ⟨?_, rfl, rfl, rfl, rfl, rfl⟩
    rw [DynamicHoneyBadger.new?, if_pos hne]

/-- Witness for C10: the four-validator netinfo matches the sample key map,
so construction succeeds with the requested era 5 and epoch 0. -/
theorem new_asserts_ids_match_witness :
    DynamicHoneyBadger.new? 0 samplePubKeys sampleNetinfo sampleParams 5 0 =
      some (DynamicHoneyBadger.newUnchecked 0 samplePubKeys sampleNetinfo
        sampleParams 5 0) ∧
    (DynamicHoneyBadger.newUnchecked 0 samplePubKeys sampleNetinfo
      sampleParams 5 0).era = 5 :=
  ⟨((new_asserts_ids_match 0 samplePubKeys sampleNetinfo sampleParams 5 0).2.1
      (by decide)).1,
   ((new_asserts_ids_match 0 samplePubKeys sampleNetinfo sampleParams 5 0).2.1
      (by decide)).2.1⟩

/-- An engine state with a pending vote of another node (voter 1, seen from
node 0), no outstanding input, no received proposals and an empty key-gen
buffer. -/
def otherVoteDhb : DynamicHoneyBadger Nat :=
  { secretKey := 0, pubKeys := samplePubKeys, maxFutureEpochs := 3, era := 5,
    voteCounter := sampleVc, keyGenMsgBuffer := [],
    honeyBadger := buildHoneyBadger sampleNetinfo 5 sampleParams 0,
    keyGenState := Option.none }

/-- C8 counterexample: `should_propose` counts only pending votes of OUR
OWN, not arbitrary unpropagated pending votes.  With another node's vote
pending (and nothing else to do), the claimed characterization says `true`
while `should_propose` returns `false`. -/
theorem should_propose_counterexample :
    ¬ (DynamicHoneyBadger.shouldPropose otherVoteDhb = true ↔
        (DynamicHoneyBadger.hasInput otherVoteDhb = false ∧
          ((DynamicHoneyBadger.netinfo otherVoteDhb).numFaulty <
              otherVoteDhb.honeyBadger.receivedProposals ∨
            VoteCounter.pendingVotes otherVoteDhb.voteCounter ≠ [] ∨
            otherVoteDhb.keyGenMsgBuffer ≠ []))) := by
  decide

/-- C8 (amended): `should_propose` is true exactly when there is no
outstanding Honey Badger input and at least one of the following holds:
strictly more than `f` proposals were received in the current epoch, WE
have an unpropagated pending vote of our own, or the key-gen message buffer
is non-empty. -/
theorem should_propose_characterization {N : Type} [LinearOrder N]
    (d : DynamicHoneyBadger N) :
    DynamicHoneyBadger.shouldPropose d = true ↔
      (DynamicHoneyBadger.hasInput d = false ∧
        ((DynamicHoneyBadger.netinfo d).numFaulty <
            d.honeyBadger.receivedProposals ∨
          (∃ sv ∈ VoteCounter.pendingVotes d.voteCounter,
            sv.voter = DynamicHoneyBadger.ourId d) ∨
          d.keyGenMsgBuffer ≠ [])) := by
  unfold DynamicHoneyBadger.shouldPropose
  by_cases h₁ : DynamicHoneyBadger.hasInput d
  · simp [h₁]
  · by_cases h₂ : d.honeyBadger.receivedProposals >
        (DynamicHoneyBadger.netinfo d).numFaulty
    · simp [h₁, h₂]
    · simp [h₁, h₂, List.any_eq_true, List.isEmpty_iff]

/-- The join plans rejected by `new_joining`: a completed encryption-policy
change whose schedule differs from the plan's params, or a completed node
change whose key map differs from the plan's key map. -/
def badJoinPlan {N : Type} [DecidableEq N] (plan : JoinPlan N) : Prop :=
  (∃ s, plan.change = ChangeState.complete (Change.encryptionSchedule s) ∧
    s ≠ plan.params.encryptionSchedule) ∨
  (∃ pks, plan.change = ChangeState.complete (Change.nodeChange pks) ∧
    pks ≠ plan.pubKeys)

/-- Shape of `send_transaction`: it always succeeds and leaves the era, the
inner instance and the key-gen state untouched (only the buffer may grow by
our self-copy). -/
theorem sendTransaction_fields {C N : Type} [LinearOrder N]
    (d : DynamicHoneyBadger N) (kg : KeyGenMessage) :
    ∃ d' step, DynamicHoneyBadger.sendTransaction (C := C) d kg =
        .ok (d', step) ∧
      d'.era = d.era ∧ d'.honeyBadger = d.honeyBadger ∧
      d'.keyGenState = d.keyGenState ∧ step.output = [] := by
  simp only [DynamicHoneyBadger.sendTransaction]
  split
  · exact ⟨_, _, rfl, rfl, rfl, rfl, rfl⟩
  · exact ⟨_, _, rfl, rfl, rfl, rfl, rfl⟩

/-- Shape of `update_key_gen` when no DKG is running: it always succeeds,
moves the engine to the given era, rebuilds the inner instance at epoch 0
over the same netinfo, and installs a DKG whose candidate key map is the
requested one. -/
theorem updateKeyGen_fresh {C N : Type} [LinearOrder N]
    (oracle : DhbOracle C N) (d : DynamicHoneyBadger N) (era : Nat)
    (pks : PubKeyMap N) (hkgs : d.keyGenState = Option.none) :
    ∃ d' step,
      DynamicHoneyBadger.updateKeyGen (C := C) oracle d era pks =
        .ok (d', step) ∧
      d'.era = era ∧
      d'.honeyBadger.epoch = 0 ∧
      d'.honeyBadger.netinfo = DynamicHoneyBadger.netinfo d ∧
      ∃ kgs, d'.keyGenState = some kgs ∧
        KeyGenState.publicKeys kgs = pks := by
  rw [DynamicHoneyBadger.updateKeyGen, hkgs]
  simp only [Option.map_none']
  rw [if_neg (by simp)]
  split
  · simp only [DynamicHoneyBadger.sendTransaction]
    split
    · exact ⟨_, _, rfl, rfl, rfl, rfl, _, rfl, rfl⟩
    · exact ⟨_, _, rfl, rfl, rfl, rfl, _, rfl, rfl⟩
  · exact ⟨_, _, rfl, rfl, rfl, rfl, _, rfl, rfl⟩

/-- C7: `new_joining` fails with `InvalidJoinPlan` exactly on a bad plan
(and that is its only error); on success the engine holds no secret key
share, sits at the plan's era with inner epoch 0, the initial step is empty
whenever the plan's change is not an in-progress node change, and an
in-progress node change starts a DKG against the new key map. -/
theorem new_joining_spec {C N : Type} [LinearOrder N] (oracle : DhbOracle C N)
    (ourId : N) (sk : SecretKey) (plan : JoinPlan N) :
    ((∃ e, DynamicHoneyBadger.newJoining oracle ourId sk plan = .error e) ↔
      badJoinPlan plan) ∧
    (∀ e, DynamicHoneyBadger.newJoining oracle ourId sk plan = .error e →
      e = Error.invalidJoinPlan) ∧
    (∀ d step,
      DynamicHoneyBadger.newJoining (C := C) oracle ourId sk plan =
        .ok (d, step) →
      (DynamicHoneyBadger.netinfo d).secretKeyShare = Option.none ∧
      d.era = plan.era ∧
      d.honeyBadger.epoch = 0 ∧
      ((∀ pks, plan.change ≠ ChangeState.inProgress (Change.nodeChange pks)) →
        step = Step.default) ∧
      (∀ pks, plan.change = ChangeState.inProgress (Change.nodeChange pks) →
        ∃ kgs, d.keyGenState = some kgs ∧
          KeyGenState.publicKeys kgs = pks)) := by
  obtain ⟨era, change, pubKeys, pubKeySet, params⟩ := plan
  cases change with
  | none =>
    refine ⟨?_, ?_, ?_⟩
    · simp [DynamicHoneyBadger.newJoining, badJoinPlan, Bind.bind,
        Except.bind, pure, Except.pure]
    · intro e he
      simp [DynamicHoneyBadger.newJoining, Bind.bind, Except.bind, pure,
        Except.pure] at he
    · intro d step h
      simp only [DynamicHoneyBadger.newJoining, Bind.bind, Except.bind, pure,
        Except.pure, Except.ok.injEq, Prod.mk.injEq] at h
      obtain ⟨hd, hstep⟩ := h
      subst hd; subst hstep
      exact ⟨rfl, rfl, rfl, fun _ => rfl, fun pks hpks => by cases hpks⟩
  | inProgress c =>
    cases c with
    | encryptionSchedule s =>
      refine ⟨?_, ?_, ?_⟩
      · simp [DynamicHoneyBadger.newJoining, badJoinPlan, Bind.bind,
          Except.bind, pure, Except.pure]
      · intro e he
        simp [DynamicHoneyBadger.newJoining, Bind.bind, Except.bind, pure,
          Except.pure] at he
      · intro d step h
        simp only [DynamicHoneyBadger.newJoining, Bind.bind, Except.bind,
          pure, Except.pure, Except.ok.injEq, Prod.mk.injEq] at h
        obtain ⟨hd, hstep⟩ := h
        subst hd; subst hstep
        exact ⟨rfl, rfl, rfl, fun _ => rfl, fun pks hpks => by cases hpks⟩
    | nodeChange pks =>
      have hjoin : DynamicHoneyBadger.newJoining (C := C) oracle ourId sk
          ⟨era, ChangeState.inProgress (Change.nodeChange pks), pubKeys,
            pubKeySet, params⟩ =
          DynamicHoneyBadger.updateKeyGen oracle
            (DynamicHoneyBadger.newUnchecked sk pubKeys
              (NetworkInfo.new ourId Option.none pubKeySet (mapKeys pubKeys))
              params era 0) era pks := by
        simp [DynamicHoneyBadger.newJoining, Bind.bind, Except.bind, pure,
          Except.pure]
      obtain ⟨d', step', hok, hera, hepoch, hni, kgs, hkgs, hpk⟩ :=
        updateKeyGen_fresh (C := C) oracle
          (DynamicHoneyBadger.newUnchecked sk pubKeys
            (NetworkInfo.new ourId Option.none pubKeySet (mapKeys pubKeys))
            params era 0) era pks rfl
      refine ⟨?_, ?_, ?_⟩
      · rw [hjoin, hok]
        simp [badJoinPlan]
      · intro e he
        rw [hjoin, hok] at he
        exact Except.noConfusion he
      · intro d step h
        rw [hjoin, hok] at h
        obtain ⟨hd, hstep⟩ : d' = d ∧ step' = step := by
          have := h
          simp only [Except.ok.injEq, Prod.mk.injEq] at this
          exact this
        subst hd; subst hstep
        refine ⟨?_, hera, hepoch, ?_, ?_⟩
        · rw [DynamicHoneyBadger.netinfo, hni]; rfl
        · intro habs
          exact absurd rfl (habs pks)
        · intro pks' hpks'
          obtain rfl : pks = pks' := by
            simpa using hpks'
          exact ⟨kgs, hkgs, hpk⟩
  | complete c =>
    cases c with
    | encryptionSchedule s =>
      by_cases hs : s = params.encryptionSchedule
      · refine ⟨?_, ?_, ?_⟩
        · simp [DynamicHoneyBadger.newJoining, badJoinPlan, hs, Bind.bind,
            Except.bind, pure, Except.pure]
        · intro e he
          simp [DynamicHoneyBadger.newJoining, hs, Bind.bind, Except.bind,
            pure, Except.pure] at he
        · intro d step h
          simp only [DynamicHoneyBadger.newJoining, hs, Bind.bind,
            Except.bind, pure, Except.pure, decide_eq_true_eq, if_pos,
            Except.ok.injEq, Prod.mk.injEq] at h
          obtain ⟨hd, hstep⟩ := h
          subst hd; subst hstep
          exact ⟨rfl, rfl, rfl, fun _ => rfl, fun pks hpks => by cases hpks⟩
      · refine ⟨?_, ?_, ?_⟩
        · simp [DynamicHoneyBadger.newJoining, badJoinPlan, hs, Bind.bind,
            Except.bind, pure, Except.pure, throw, throwThe,
            MonadExceptOf.throw]
        · intro e he
          simp [DynamicHoneyBadger.newJoining, hs, Bind.bind, Except.bind,
            pure, Except.pure, throw, throwThe, MonadExceptOf.throw] at he
          exact he.symm
        · intro d step h
          simp [DynamicHoneyBadger.newJoining, hs, Bind.bind, Except.bind,
            pure, Except.pure, throw, throwThe, MonadExceptOf.throw] at h
    | nodeChange pksC =>
      by_cases hp : pksC = pubKeys
      · refine ⟨?_, ?_, ?_⟩
        · simp [DynamicHoneyBadger.newJoining, badJoinPlan, hp, Bind.bind,
            Except.bind, pure, Except.pure]
        · intro e he
          simp [DynamicHoneyBadger.newJoining, hp, Bind.bind, Except.bind,
            pure, Except.pure] at he
        · intro d step h
          simp only [DynamicHoneyBadger.newJoining, hp, Bind.bind,
            Except.bind, pure, Except.pure, decide_eq_true_eq, if_pos,
            Except.ok.injEq, Prod.mk.injEq] at h
          obtain ⟨hd, hstep⟩ := h
          subst hd; subst hstep
          exact ⟨rfl, rfl, rfl, fun _ => rfl, fun pks hpks => by cases hpks⟩
      · refine ⟨?_, ?_, ?_⟩
        · simp [DynamicHoneyBadger.newJoining, badJoinPlan, hp, Bind.bind,
            Except.bind, pure, Except.pure, throw, throwThe,
            MonadExceptOf.throw]
        · intro e he
          simp [DynamicHoneyBadger.newJoining, hp, Bind.bind, Except.bind,
            pure, Except.pure, throw, throwThe, MonadExceptOf.throw] at he
          exact he.symm
        · intro d step h
          simp [DynamicHoneyBadger.newJoining, hp, Bind.bind, Except.bind,
            pure, Except.pure, throw, throwThe, MonadExceptOf.throw] at h

/-- A valid join plan (no change in flight) for the four-validator network
at era 5. -/
def samplePlan : JoinPlan Nat :=
  { era := 5, change := ChangeState.none, pubKeys := samplePubKeys,
    pubKeySet := 0, params := sampleParams }

/-- The engine `new_joining` builds from `samplePlan` for joiner 4. -/
def sampleJoinDhb : DynamicHoneyBadger Nat :=
  DynamicHoneyBadger.newUnchecked 0 samplePubKeys
    (NetworkInfo.new 4 Option.none 0 (mapKeys samplePubKeys)) sampleParams 5 0

/-- Witness for C7: joining on `samplePlan` succeeds with no key share, era
5, inner epoch 0 and an empty initial step. -/
theorem new_joining_spec_witness :
    (DynamicHoneyBadger.netinfo sampleJoinDhb).secretKeyShare = Option.none ∧
    sampleJoinDhb.era = 5 ∧
    sampleJoinDhb.honeyBadger.epoch = 0 ∧
    (Step.default : Step Nat Nat) = Step.default := by
  have h := (new_joining_spec trivOracle 4 0 samplePlan).2.2 sampleJoinDhb
    Step.default (by rfl)
  exact ⟨h.1, h.2.1, h.2.2.1, h.2.2.2.1 (fun pks hpks => by cases hpks)⟩

/-- Unfolding `countVotesFor` on a cons cell. -/
theorem countVotesFor_cons {N : Type} [LinearOrder N] (v : Vote N)
    (l : List (Vote N)) (c : Change N) :
    countVotesFor (v :: l) c =
      (if v.change = c then 1 else 0) + countVotesFor l c := by
  by_cases h : v.change = c
  · simp [countVotesFor, List.filter_cons, h, Nat.add_comm]
  · simp [countVotesFor, List.filter_cons, h]

/-- Moving one vote from the remaining list into the running count map
preserves `running + remaining` for every change. -/
theorem count_shift {N : Type} [LinearOrder N] (counts : List (Change N × Nat))
    (v : Vote N) (l : List (Vote N)) (c : Change N) :
    (mapLookup counts c).getD 0 + countVotesFor (v :: l) c =
      (mapLookup (mapSet counts v.change
        ((mapLookup counts v.change).getD 0 + 1)) c).getD 0 +
        countVotesFor l c := by
  by_cases h : c = v.change
  · subst h
    rw [mapLookup_mapSet_self, countVotesFor_cons, if_pos rfl]
    simp only [Option.getD_some]
    omega
  · rw [mapLookup_mapSet_ne _ _ _ _ h, countVotesFor_cons,
      if_neg (fun hh => h hh.symm)]
    omega

/-- If the scan of `compute_winner` returns nothing, then starting from
counts all at most `f`, every change's final tally stays at most `f`. -/
theorem computeWinnerGo_le {N : Type} [LinearOrder N] (f : Nat) :
    ∀ (vs : List (Vote N)) (counts : List (Change N × Nat)),
      (∀ c, (mapLookup counts c).getD 0 ≤ f) →
      VoteCounter.computeWinnerGo f counts vs = Option.none →
      ∀ c, (mapLookup counts c).getD 0 + countVotesFor vs c ≤ f := by
  intro vs
  induction vs with
  | nil =>
    intro counts hb _ c
    simpa [countVotesFor] using hb c
  | cons v l ih =>
    intro counts hb h c
    simp only [VoteCounter.computeWinnerGo] at h
    by_cases hn : (mapLookup counts v.change).getD 0 + 1 > f
    · rw [if_pos hn] at h
      exact Option.noConfusion h
    · rw [if_neg hn] at h
      have hb' : ∀ c', (mapLookup (mapSet counts v.change
          ((mapLookup counts v.change).getD 0 + 1)) c').getD 0 ≤ f := by
        intro c'
        by_cases hc : c' = v.change
        · subst hc
          rw [mapLookup_mapSet_self]
          simp only [Option.getD_some]
          omega
        · rw [mapLookup_mapSet_ne _ _ _ _ hc]; exact hb c'
      rw [count_shift counts v l c]
      exact ih _ hb' h c

/-- If the scan of `compute_winner` returns a change, that change's final
tally (running count included) strictly exceeds `f`. -/
theorem computeWinnerGo_gt {N : Type} [LinearOrder N] (f : Nat) :
    ∀ (vs : List (Vote N)) (counts : List (Change N × Nat)) (c : Change N),
      VoteCounter.computeWinnerGo f counts vs = some c →
      (mapLookup counts c).getD 0 + countVotesFor vs c > f := by
  intro vs
  induction vs with
  | nil =>
    intro counts c h
    exact Option.noConfusion h
  | cons v l ih =>
    intro counts c h
    simp only [VoteCounter.computeWinnerGo] at h
    by_cases hn : (mapLookup counts v.change).getD 0 + 1 > f
    · rw [if_pos hn] at h
      obtain rfl : v.change = c := by
        simpa using h
      rw [countVotesFor_cons, if_pos rfl]
      omega
    · rw [if_neg hn] at h
      rw [count_shift counts v l c]
      exact ih _ c h

/-- If the scan of `compute_winner` returns a change, that change is the
one crossing the threshold first: at some position its running tally
exceeds `f` while at every earlier position no change's tally does. -/
theorem computeWinnerGo_first {N : Type} [LinearOrder N] (f : Nat) :
    ∀ (vs : List (Vote N)) (counts : List (Change N × Nat)) (c : Change N),
      (∀ c', (mapLookup counts c').getD 0 ≤ f) →
      VoteCounter.computeWinnerGo f counts vs = some c →
      ∃ i, ∃ hi : i < vs.length, (vs.get ⟨i, hi⟩).change = c ∧
        (mapLookup counts c).getD 0 +
          countVotesFor (vs.take (i + 1)) c > f ∧
        ∀ j < i, ∀ c', (mapLookup counts c').getD 0 +
          countVotesFor (vs.take (j + 1)) c' ≤ f := by
  intro vs
  induction vs with
  | nil =>
    intro counts c _ h
    exact Option.noConfusion h
  | cons v l ih =>
    intro counts c hb h
    simp only [VoteCounter.computeWinnerGo] at h
    by_cases hn : (mapLookup counts v.change).getD 0 + 1 > f
    · rw [if_pos hn] at h
      obtain rfl : v.change = c := by
        simpa using h
      refine ⟨0, by simp, rfl, ?_, ?_⟩
      · rw [show (v :: l).take 1 = [v] from rfl]
        rw [show countVotesFor [v] v.change =
          (if v.change = v.change then 1 else 0) + countVotesFor [] v.change
          from countVotesFor_cons v [] v.change]
        simp [countVotesFor]
        omega
      · intro j hj
        exact absurd hj (Nat.not_lt_zero j)
    · rw [if_neg hn] at h
      have hb' : ∀ c', (mapLookup (mapSet counts v.change
          ((mapLookup counts v.change).getD 0 + 1)) c').getD 0 ≤ f := by
        intro c'
        by_cases hc : c' = v.change
        · subst hc
          rw [mapLookup_mapSet_self]
          simp only [Option.getD_some]
          omega
        · rw [mapLookup_mapSet_ne _ _ _ _ hc]; exact hb c'
      obtain ⟨i, hi, hc, hcount, hfirst⟩ := ih _ c hb' h
      refine ⟨i + 1, by simpa using Nat.succ_lt_succ hi, by simpa using hc,
        ?_, ?_⟩
      · rw [show (v :: l).take (i + 1 + 1) = v :: l.take (i + 1) from rfl,
          count_shift]
        exact hcount
      · intro j hj c'
        cases j with
        | zero =>
          rw [show (v :: l).take 1 = [v] from rfl]
          by_cases hc' : v.change = c'
          · subst hc'
            rw [show countVotesFor [v] v.change =
              (if v.change = v.change then 1 else 0) +
                countVotesFor [] v.change
              from countVotesFor_cons v [] v.change]
            simp [countVotesFor]
            omega
          · rw [show countVotesFor [v] c' =
              (if v.change = c' then 1 else 0) + countVotesFor [] c'
              from countVotesFor_cons v [] c', if_neg hc']
            simpa [countVotesFor] using hb c'
        | succ j' =>
          have hj' : j' < i := by omega
          rw [show (v :: l).take (j' + 1 + 1) = v :: l.take (j' + 1) from rfl,
            count_shift]
          exact hfirst j' hj' c'

/-- C1: `compute_winner` returns `None` exactly when no change is named by
strictly more than `f = max_faulty(|pub_keys|) = ⌊(n−1)/3⌋` committed votes
(one per distinct voter — `committed` maps each voter to at most one vote);
when it returns `Some c`, `c`'s committed tally strictly exceeds `f` and
`c` is the first change to cross the threshold while scanning the committed
votes in the map's iteration order. -/
theorem compute_winner_spec {N : Type} [LinearOrder N] (vc : VoteCounter N) :
    (VoteCounter.computeWinner vc = Option.none ↔
      ∀ c, countVotesFor (mapValues vc.committed) c ≤
        maxFaulty vc.pubKeys.length) ∧
    (∀ c, VoteCounter.computeWinner vc = some c →
      countVotesFor (mapValues vc.committed) c >
        maxFaulty vc.pubKeys.length ∧
      ∃ i, ∃ hi : i < (mapValues vc.committed).length,
        ((mapValues vc.committed).get ⟨i, hi⟩).change = c ∧
        countVotesFor ((mapValues vc.committed).take (i + 1)) c >
          maxFaulty vc.pubKeys.length ∧
        ∀ j < i, ∀ c',
          countVotesFor ((mapValues vc.committed).take (j + 1)) c' ≤
            maxFaulty vc.pubKeys.length) := by
  have hempty : ∀ c : Change N, (mapLookup ([] : List (Change N × Nat)) c).getD 0 ≤
      maxFaulty vc.pubKeys.length := by
    intro c; simp [mapLookup]
  constructor
  · constructor
    · intro h c
      have := computeWinnerGo_le (maxFaulty vc.pubKeys.length)
        (mapValues vc.committed) [] hempty h c
      simpa [mapLookup] using this
    · intro h
      cases hval : VoteCounter.computeWinner vc with
      | none => rfl
      | some c =>
        exfalso
        have hgt := computeWinnerGo_gt (maxFaulty vc.pubKeys.length)
          (mapValues vc.committed) [] c hval
        simp only [mapLookup, Option.getD_none, Nat.zero_add] at hgt
        exact absurd (h c) (by omega)
  · intro c h
    constructor
    · have hgt := computeWinnerGo_gt (maxFaulty vc.pubKeys.length)
        (mapValues vc.committed) [] c h
      simpa [mapLookup] using hgt
    · have hfst := computeWinnerGo_first (maxFaulty vc.pubKeys.length)
        (mapValues vc.committed) [] c hempty h
      simpa [mapLookup] using hfst

/-- A vote counter whose committed map holds two votes for the same change,
crossing `f = 1` of the four-validator network. -/
def winnerVc : VoteCounter Nat :=
  { ourId := 0, secretKey := 0, pubKeys := samplePubKeys, era := 5,
    pending := [],
    committed := [(0, ⟨Change.encryptionSchedule 9, 5, 0⟩),
                  (1, ⟨Change.encryptionSchedule 9, 5, 0⟩)] }

/-- Witness for C1: with two of four voters committed to the same change,
`compute_winner` elects it and its tally exceeds `f = 1`. -/
theorem compute_winner_spec_witness :
    countVotesFor (mapValues winnerVc.committed)
        (Change.encryptionSchedule 9) > maxFaulty winnerVc.pubKeys.length :=
  ((compute_winner_spec winnerVc).2 (Change.encryptionSchedule 9) (by rfl)).1

/-- A property preserved by every step of a monadic fold over `Except` is
preserved by the whole fold. -/
theorem foldlM_except_preserve {α β ε : Type} (P : α → Prop)
    (f : α → β → Except ε α)
    (hf : ∀ a b a', P a → f a b = .ok a' → P a') :
    ∀ (l : List β) (a a' : α), P a → List.foldlM f a l = .ok a' → P a' := by
  intro l
  induction l with
  | nil =>
    intro a a' hP h
    cases h
    exact hP
  | cons b l ih =>
    intro a a' hP h
    rw [List.foldlM_cons] at h
    cases hfa : f a b with
    | error e =>
      rw [hfa] at h
      exact Except.noConfusion h
    | ok a₁ =>
      rw [hfa] at h
      exact ih a₁ a' (hf a b a₁ hP hfa) h

/-- `send_transaction` emits no batches. -/
theorem sendTransaction_output {C N : Type} [LinearOrder N]
    (d : DynamicHoneyBadger N) (kg : KeyGenMessage)
    (r : DynamicHoneyBadger N × Step C N)
    (h : DynamicHoneyBadger.sendTransaction (C := C) d kg = .ok r) :
    r.2.output = [] := by
  obtain ⟨d', step, heq, _, _, _, hout⟩ := sendTransaction_fields (C := C) d kg
  rw [heq] at h
  cases h
  exact hout

/-- `handle_part` emits no batches. -/
theorem handlePart_output {C N : Type} [LinearOrder N] (oracle : DhbOracle C N)
    (d : DynamicHoneyBadger N) (senderId : N) (p : Part)
    (r : DynamicHoneyBadger N × Step C N)
    (h : DynamicHoneyBadger.handlePart oracle d senderId p = .ok r) :
    r.2.output = [] := by
  rw [DynamicHoneyBadger.handlePart] at h
  split at h
  · cases h; rfl
  · split at h
    · exact sendTransaction_output _ _ _ h
    · cases h; rfl
    · cases h; rfl

/-- `handle_ack` emits no batches. -/
theorem handleAck_output {C N : Type} [LinearOrder N] (oracle : DhbOracle C N)
    (d : DynamicHoneyBadger N) (senderId : N) (a : Ack)
    (r : DynamicHoneyBadger N × Step C N)
    (h : DynamicHoneyBadger.handleAck oracle d senderId a = .ok r) :
    r.2.output = [] := by
  rw [DynamicHoneyBadger.handleAck] at h
  split at h
  · cases h; rfl
  · split at h
    · cases h; rfl
    · cases h; rfl

/-- Handling a committed key-gen message emits no batches. -/
theorem handleCommittedKeyGenMsg_output {C N : Type} [LinearOrder N]
    (oracle : DhbOracle C N) (d : DynamicHoneyBadger N) (proposerId : N)
    (skgm : SignedKeyGenMsg N) (r : DynamicHoneyBadger N × Step C N)
    (h : DynamicHoneyBadger.handleCommittedKeyGenMsg oracle d proposerId skgm
      = .ok r) :
    r.2.output = [] := by
  simp only [DynamicHoneyBadger.handleCommittedKeyGenMsg,
    DynamicHoneyBadger.verifySignature, Bind.bind, Except.bind, pure,
    Except.pure] at h
  split at h
  · cases h; rfl
  · split at h
    · cases h; rfl
    · split at h
      · exact handlePart_output _ _ _ _ _ h
      · exact handleAck_output _ _ _ _ _ h

/-- The per-contribution loop body of `process_output` preserves an empty
batch output. -/
theorem processContrib_output {C N : Type} [LinearOrder N]
    (oracle : DhbOracle C N)
    (acc : DynamicHoneyBadger N × Step C N × List (N × C))
    (entry : N × InternalContrib C N)
    (r : DynamicHoneyBadger N × Step C N × List (N × C))
    (hP : acc.2.1.output = [])
    (h : DynamicHoneyBadger.processContrib oracle acc entry = .ok r) :
    r.2.1.output = [] := by
  obtain ⟨d, step, contribs⟩ := acc
  obtain ⟨id, ic⟩ := entry
  simp only [DynamicHoneyBadger.processContrib, Bind.bind, Except.bind] at h
  cases hvc : VoteCounter.addCommittedVotes d.voteCounter id ic.votes with
  | error e =>
    rw [hvc] at h
    dsimp only at h
    exact Except.noConfusion h
  | ok rv =>
    rw [hvc] at h
    dsimp only at h
    refine foldlM_except_preserve
      (fun acc₂ : DynamicHoneyBadger N × Step C N × List (N × C) =>
        acc₂.2.1.output = []) _ ?_ _ _ _ ?_ h
    case refine_2 => exact hP
    intro a b a' hPa hab
    cases hkg : DynamicHoneyBadger.handleCommittedKeyGenMsg oracle a.1 id b
      with
    | error e =>
      rw [hkg] at hab
      dsimp only at hab
      exact Except.noConfusion hab
    | ok r₂ =>
      rw [hkg] at hab
      simp only [pure, Except.pure, Except.ok.injEq] at hab
      subst hab
      show (Step.merge a.2.1 r₂.2).output = []
      have h₂ := handleCommittedKeyGenMsg_output _ _ _ _ _ hkg
      simp [Step.merge, hPa, h₂]

/-- `update_key_gen` emits no batches. -/
theorem updateKeyGen_output {C N : Type} [LinearOrder N]
    (oracle : DhbOracle C N) (d : DynamicHoneyBadger N) (era : Nat)
    (pks : PubKeyMap N) (r : DynamicHoneyBadger N × Step C N)
    (h : DynamicHoneyBadger.updateKeyGen oracle d era pks = .ok r) :
    r.2.output = [] := by
  rw [DynamicHoneyBadger.updateKeyGen] at h
  split at h
  · cases h; rfl
  · dsimp only at h
    split at h
    · exact sendTransaction_output _ _ _ h
    · cases h; rfl

/-- C5 (amended): when the body of `process_output` for one inner batch
emits a batch whose change is `Complete`, the engine's era afterwards is
`batch_epoch + 1` — the batch's era plus the inner epoch plus one, not the
batch's era plus one — every buffer entry of an older era is discarded, and
the vote counter is rebuilt empty for the new era. -/
theorem process_batch_complete {C N : Type} [LinearOrder N]
    (oracle : DhbOracle C N) (d : DynamicHoneyBadger N) (hb : HbBatch C N)
    (d' : DynamicHoneyBadger N) (step : Step C N)
    (h : DynamicHoneyBadger.processBatch oracle d hb = .ok (d', step)) :
    ∀ b ∈ step.output, ChangeState.isComplete b.change = true →
      b.era = d.era ∧ b.epoch = hb.epoch + d.era ∧
      d'.era = b.epoch + 1 ∧
      (∀ m ∈ d'.keyGenMsgBuffer, d'.era ≤ m.era) ∧
      d'.voteCounter.pending = [] ∧ d'.voteCounter.committed = [] ∧
      d'.voteCounter.era = d'.era := by
  simp only [DynamicHoneyBadger.processBatch, Bind.bind, Except.bind] at h
  cases hfold : List.foldlM (DynamicHoneyBadger.processContrib oracle)
      (d, Step.default, ([] : List (N × C))) hb.contributions with
  | error e =>
    rw [hfold] at h
    exact Except.noConfusion h
  | ok acc =>
    rw [hfold] at h
    dsimp only at h
    obtain ⟨d₁, step₁, contribs⟩ := acc
    have hout₁ : step₁.output = [] :=
      foldlM_except_preserve _ _ (fun a b a' => processContrib_output oracle a b a')
        _ _ _ rfl hfold
    intro b hbmem hbc
    split at h
    · rename_i d₂ kgs htake
      split at h
      · exact Except.noConfusion h
      · rename_i rgen hgen
        simp only [pure, Except.pure, DynamicHoneyBadger.emitBatch,
          Except.ok.injEq, Prod.mk.injEq] at h
        obtain ⟨hd, hstep⟩ := h
        subst hd
        subst hstep
        simp only [hout₁, List.nil_append, List.mem_singleton] at hbmem
        subst hbmem
        refine ⟨rfl, rfl, rfl, ?_, rfl, rfl, rfl⟩
        intro m hm
        simp only [DynamicHoneyBadger.restartHoneyBadger,
          List.mem_filter] at hm
        exact of_decide_eq_true hm.2
    · rename_i d₂ htake
      split at h
      · rename_i pks hwin
        cases hupd : DynamicHoneyBadger.updateKeyGen oracle d₂
            (hb.epoch + d.era + 1) pks with
        | error e =>
          rw [hupd] at h
          exact Except.noConfusion h
        | ok rup =>
          rw [hupd] at h
          simp only [pure, Except.pure, DynamicHoneyBadger.emitBatch,
            Except.ok.injEq, Prod.mk.injEq] at h
          obtain ⟨hd, hstep⟩ := h
          subst hd
          subst hstep
          have hupout : rup.2.output = [] := updateKeyGen_output _ _ _ _ _ hupd
          simp only [Step.merge, hout₁, hupout, List.nil_append,
            List.append_nil, List.mem_singleton] at hbmem
          subst hbmem
          simp [ChangeState.isComplete] at hbc
      · rename_i sch hwin
        simp only [pure, Except.pure, DynamicHoneyBadger.emitBatch,
          Except.ok.injEq, Prod.mk.injEq] at h
        obtain ⟨hd, hstep⟩ := h
        subst hd
        subst hstep
        simp only [hout₁, List.nil_append, List.mem_singleton] at hbmem
        subst hbmem
        refine ⟨rfl, rfl, rfl, ?_, rfl, rfl, rfl⟩
        intro m hm
        simp only [DynamicHoneyBadger.updateEncryptionSchedule,
          DynamicHoneyBadger.restartHoneyBadger, List.mem_filter] at hm
        exact of_decide_eq_true hm.2
      · rename_i hwin
        simp only [pure, Except.pure, DynamicHoneyBadger.emitBatch,
          Except.ok.injEq, Prod.mk.injEq] at h
        obtain ⟨hd, hstep⟩ := h
        subst hd
        subst hstep
        simp only [hout₁, List.nil_append, List.mem_singleton] at hbmem
        subst hbmem
        simp [ChangeState.isComplete] at hbc

/-- A key-gen state that is ready: the DKG reports ready and 1 of 1
participants is complete (3 > 2). -/
def readyKgs : KeyGenState Nat := ⟨⟨[(0, 0)], true, 1⟩, []⟩

/-- An engine at era 0 with a ready DKG, about to finalize a node change. -/
def finalizeDhb : DynamicHoneyBadger Nat :=
  { secretKey := 0, pubKeys := samplePubKeys, maxFutureEpochs := 3, era := 0,
    voteCounter := VoteCounter.new 0 0 samplePubKeys 0,
    keyGenMsgBuffer := [],
    honeyBadger := buildHoneyBadger sampleNetinfo 0 sampleParams 0,
    keyGenState := some readyKgs }

/-- An inner Honey Badger batch of epoch 1 with no contributions. -/
def epochOneHbBatch : HbBatch Nat Nat := ⟨1, []⟩

/-- The state and step `process_output` produces from `finalizeDhb` on
`epochOneHbBatch`. -/
def finalizeResult : DynamicHoneyBadger Nat × Step Nat Nat :=
  ((DynamicHoneyBadger.processBatch trivOracle finalizeDhb
    epochOneHbBatch).toOption).getD (finalizeDhb, Step.default)

/-- The batch emitted by that call: era 0, epoch 1, completed node change. -/
def finalizeBatch : Batch Nat Nat :=
  { epoch := 1, era := 0, contributions := [],
    change := ChangeState.complete (Change.nodeChange [(0, 0)]),
    pubKeys := [(0, 0)], netinfo := ⟨0, Option.none, 0, [0]⟩,
    params := sampleParams }

/-- C5 counterexample: finalizing a complete change on an inner batch of
epoch 1 leaves the engine at era `batch_epoch + 1 = 2`, not at the batch's
era plus one (which would be 1): the claimed `era' = batch.era + 1` fails
whenever the inner epoch is nonzero. -/
theorem process_batch_complete_counterexample :
    ¬ (∀ r, DynamicHoneyBadger.processBatch trivOracle finalizeDhb
          epochOneHbBatch = Except.ok r →
        ∀ b ∈ r.2.output, ChangeState.isComplete b.change = true →
          r.1.era = b.era + 1) := by
  intro hcl
  have h2 := hcl _ rfl
  revert h2
  decide

/-- Witness for C5: on the same finalizing run the amended law holds — the
engine lands at era `batch_epoch + 1 = 2` with a fresh empty vote
counter. -/
theorem process_batch_complete_witness :
    DynamicHoneyBadger.processBatch trivOracle finalizeDhb epochOneHbBatch =
      Except.ok (finalizeResult.1, finalizeResult.2) ∧
    finalizeResult.1.era = finalizeBatch.epoch + 1 ∧
    finalizeResult.1.voteCounter.pending = [] ∧
    finalizeResult.1.voteCounter.committed = [] := by
  have h := process_batch_complete trivOracle finalizeDhb epochOneHbBatch
    finalizeResult.1 finalizeResult.2 (by rfl) finalizeBatch (by decide)
    (by decide)
  exact ⟨by rfl, h.2.2.1, h.2.2.2.2.1, h.2.2.2.2.2.1⟩

end MinaOS
